import Mathlib

/-
  Verification of the geometry/data-flow contract of the outpainting pipeline
  in src/outpainting.py (class OpenAIOutpainting).

  The pipeline is sequential image arithmetic: load/resize, pad, split into
  two square tiles, send tiles to an external generation service, composite
  the returned tiles, flatten alpha.  Python computes the geometry with IEEE-754
  double-precision floats and truncating `int()` conversions, so the embedding
  models doubles exactly: a double value is a rational number, and every
  arithmetic operation rounds its exact rational result to 53 significant bits
  with round-to-nearest, ties-to-even (`fl53` below).  This model agrees with
  IEEE-754 binary64 on all finite normal values, which covers every quantity
  the pipeline manipulates (image dimensions and padding fractions).
-/

namespace Outpainting

/-- Round a rational to the nearest integer, ties to even (IEEE-754 default
rounding applied at integer granularity). -/
def roundEven (q : ℚ) : ℤ :=
  if q - ⌊q⌋ < 1/2 then ⌊q⌋
  else if 1/2 < q - ⌊q⌋ then ⌊q⌋ + 1
  else if 2 ∣ ⌊q⌋ then ⌊q⌋ else ⌊q⌋ + 1

/-- Round an exact rational to the nearest IEEE-754 binary64 value
(53 significant bits, round-to-nearest ties-to-even), for values in the normal
range.  Every float operation in the Python source is modelled as the exact
rational operation followed by `fl53`. -/
def fl53 (q : ℚ) : ℚ :=
  if 0 < q then
    (roundEven (q * 2 ^ ((52 : ℤ) - Int.log 2 q)) : ℚ) * 2 ^ (Int.log 2 q - 52)
  else if q < 0 then
    -((roundEven (-q * 2 ^ ((52 : ℤ) - Int.log 2 (-q))) : ℚ) * 2 ^ (Int.log 2 (-q) - 52))
  else 0

/-- Python `int()` applied to a float: truncation toward zero. -/
def pyInt (q : ℚ) : ℤ := if 0 ≤ q then ⌊q⌋ else ⌈q⌉

/-- Relative rounding error of one 53-bit rounding step. -/
def eps53 : ℚ := 1 / 2 ^ 53

/-- Accumulated relative error bound for two rounding steps. -/
def eps51 : ℚ := 1 / 2 ^ 51

/-- Relative error bound for a single rounding step, stated loosely. -/
def eps52 : ℚ := 1 / 2 ^ 52

/-- Accumulated relative error bound for three rounding steps. -/
def eps50 : ℚ := 1 / 2 ^ 50

theorem roundEven_intCast (m : ℤ) : roundEven (m : ℚ) = m := by
  simp [roundEven]

theorem roundEven_eq_low (q : ℚ) (f : ℤ) (h1 : (f : ℚ) ≤ q) (h2 : q < (f : ℚ) + 1/2) :
    roundEven q = f := by
  have hf : ⌊q⌋ = f := by
    rw [Int.floor_eq_iff]
    exact ⟨h1, by linarith⟩
  rw [roundEven, hf, if_pos (by linarith)]

theorem roundEven_eq_high (q : ℚ) (f : ℤ) (h1 : (f : ℚ) + 1/2 < q) (h2 : q < (f : ℚ) + 1) :
    roundEven q = f + 1 := by
  have hf : ⌊q⌋ = f := by
    rw [Int.floor_eq_iff]
    exact ⟨by linarith, h2⟩
  rw [roundEven, hf, if_neg (by linarith), if_pos (by linarith)]

theorem roundEven_eq_tie (q : ℚ) (f : ℤ) (h1 : q = (f : ℚ) + 1/2) (h2 : 2 ∣ f) :
    roundEven q = f := by
  have hf : ⌊q⌋ = f := by
    rw [Int.floor_eq_iff]
    constructor <;> [linarith; linarith]
  rw [roundEven, hf, if_neg (by rw [h1]; ring_nf; norm_num), if_neg (by rw [h1]; ring_nf; norm_num),
    if_pos h2]

theorem abs_roundEven_sub (q : ℚ) : |(roundEven q : ℚ) - q| ≤ 1/2 := by
  have hfl : (⌊q⌋ : ℚ) ≤ q := Int.floor_le q
  have hfu : q < (⌊q⌋ : ℚ) + 1 := Int.lt_floor_add_one q
  rw [roundEven]
  split_ifs with h1 h2 h3 <;> rw [abs_le] <;> push_cast <;> constructor <;> linarith

theorem roundEven_nonneg (q : ℚ) (h : 0 ≤ q) : 0 ≤ roundEven q := by
  have hfl : (0 : ℤ) ≤ ⌊q⌋ := Int.floor_nonneg.mpr h
  rw [roundEven]
  split_ifs <;> omega

/-- Determine the binary exponent from explicit power-of-two bounds. -/
theorem int_log_eq (q : ℚ) (e : ℤ) (h0 : 0 < q) (h1 : (2 : ℚ) ^ e ≤ q)
    (h2 : q < (2 : ℚ) ^ (e + 1)) : Int.log 2 q = e := by
  have hle := (Int.zpow_le_iff_le_log (b := 2) (R := ℚ) (by norm_num) h0).mp (by simpa using h1)
  have hlt := (Int.lt_zpow_iff_log_lt (b := 2) (R := ℚ) (by norm_num) h0).mp (by simpa using h2)
  omega

theorem fl53_of_pos (q : ℚ) (h : 0 < q) :
    fl53 q = (roundEven (q * 2 ^ ((52 : ℤ) - Int.log 2 q)) : ℚ) * 2 ^ (Int.log 2 q - 52) := by
  rw [fl53, if_pos h]

theorem fl53_zero : fl53 0 = 0 := by
  rw [fl53, if_neg (by norm_num), if_neg (by norm_num)]

/-- Evaluate `fl53` at a concrete value: supply the binary exponent `e` and
the rounded integer significand `m`. -/
theorem fl53_eval (q : ℚ) (e m : ℤ) (h0 : 0 < q) (h1 : (2 : ℚ) ^ e ≤ q)
    (h2 : q < (2 : ℚ) ^ (e + 1)) (hm : roundEven (q * 2 ^ ((52 : ℤ) - e)) = m) :
    fl53 q = (m : ℚ) * 2 ^ (e - 52) := by
  rw [fl53_of_pos q h0, int_log_eq q e h0 h1 h2, hm]

/-- A value whose significand already fits in 53 bits is left unchanged. -/
theorem fl53_eq_self (q : ℚ) (e m : ℤ) (h0 : 0 < q) (h1 : (2 : ℚ) ^ e ≤ q)
    (h2 : q < (2 : ℚ) ^ (e + 1)) (hm : q * 2 ^ ((52 : ℤ) - e) = (m : ℚ)) :
    fl53 q = q := by
  rw [fl53_eval q e m h0 h1 h2 (by rw [hm, roundEven_intCast]), ← hm, mul_assoc,
    ← zpow_add₀ (two_ne_zero), show (52 : ℤ) - e + (e - 52) = 0 by ring, zpow_zero, mul_one]

theorem fl53_nonneg (q : ℚ) (h : 0 ≤ q) : 0 ≤ fl53 q := by
  rcases h.eq_or_lt with heq | hpos
  · rw [← heq, fl53_zero]
  · rw [fl53_of_pos q hpos]
    have h1 : (0 : ℤ) ≤ roundEven (q * 2 ^ ((52 : ℤ) - Int.log 2 q)) :=
      roundEven_nonneg _ (by positivity)
    have h2 : (0 : ℚ) < 2 ^ (Int.log 2 q - 52) := by positivity
    positivity

/-- Relative error of one rounding step: at most one unit in the last place,
i.e. a factor of `2 ^ (-53)` of the value. -/
theorem abs_fl53_sub (q : ℚ) (h : 0 ≤ q) : |fl53 q - q| ≤ q * eps53 := by
  rcases h.eq_or_lt with heq | hpos
  · rw [← heq, fl53_zero]
    norm_num
  · have hlog : ((2 : ℚ) ^ Int.log 2 q) ≤ q := by
      have := Int.zpow_log_le_self (b := 2) (R := ℚ) (by norm_num) hpos
      simpa using this
    have hq : q * 2 ^ ((52 : ℤ) - Int.log 2 q) * 2 ^ (Int.log 2 q - 52) = q := by
      rw [mul_assoc, ← zpow_add₀ (two_ne_zero),
        show (52 : ℤ) - Int.log 2 q + (Int.log 2 q - 52) = 0 by ring, zpow_zero, mul_one]
    have hdiff : (roundEven (q * 2 ^ ((52 : ℤ) - Int.log 2 q)) : ℚ) * 2 ^ (Int.log 2 q - 52) - q
        = ((roundEven (q * 2 ^ ((52 : ℤ) - Int.log 2 q)) : ℚ)
            - q * 2 ^ ((52 : ℤ) - Int.log 2 q)) * 2 ^ (Int.log 2 q - 52) := by
      rw [sub_mul, hq]
    rw [fl53_of_pos q hpos]
    calc |(roundEven (q * 2 ^ ((52 : ℤ) - Int.log 2 q)) : ℚ) * 2 ^ (Int.log 2 q - 52) - q|
        = |(roundEven (q * 2 ^ ((52 : ℤ) - Int.log 2 q)) : ℚ) - q * 2 ^ ((52 : ℤ) - Int.log 2 q)|
            * 2 ^ (Int.log 2 q - 52) := by
          rw [hdiff, abs_mul, abs_of_pos (show (0:ℚ) < 2 ^ (Int.log 2 q - 52) by positivity)]
      _ ≤ (1/2) * 2 ^ (Int.log 2 q - 52) := by
          have := abs_roundEven_sub (q * 2 ^ ((52 : ℤ) - Int.log 2 q))
          have hp : (0:ℚ) < 2 ^ (Int.log 2 q - 52) := by positivity
          exact mul_le_mul_of_nonneg_right this hp.le
      _ = 2 ^ Int.log 2 q * eps53 := by
          rw [eps53]
          rw [show Int.log 2 q - 52 = Int.log 2 q + (-52) by ring, zpow_add₀ (two_ne_zero)]
          rw [show ((2:ℚ)) ^ (-52 : ℤ) = ((2:ℚ) ^ (52 : ℕ))⁻¹ by
            rw [← zpow_natCast (2:ℚ) 52, ← zpow_neg]
            norm_num]
          rw [show ((1:ℚ) / 2 ^ 53) = ((2:ℚ) ^ (52 : ℕ))⁻¹ * 2⁻¹ by
            rw [← mul_inv, one_div]
            norm_num [pow_succ]]
          ring
      _ ≤ q * eps53 := by
          have heps : (0:ℚ) < eps53 := by rw [eps53]; norm_num
          exact mul_le_mul_of_nonneg_right hlog heps.le

/-- Two-sided multiplicative bounds for one rounding step. -/
theorem fl53_bounds (q : ℚ) (h : 0 ≤ q) :
    q * (1 - eps53) ≤ fl53 q ∧ fl53 q ≤ q * (1 + eps53) := by
  have := abs_fl53_sub q h
  rw [abs_le] at this
  constructor <;> nlinarith [this.1, this.2]

theorem pyInt_of_nonneg (q : ℚ) (h : 0 ≤ q) : pyInt q = ⌊q⌋ := if_pos h

theorem pyInt_nonneg (q : ℚ) (h : 0 ≤ q) : 0 ≤ pyInt q := by
  rw [pyInt_of_nonneg q h]
  exact Int.floor_nonneg.mpr h

theorem pyInt_le (q : ℚ) (h : 0 ≤ q) : (pyInt q : ℚ) ≤ q := by
  rw [pyInt_of_nonneg q h]
  exact Int.floor_le q

theorem lt_pyInt_add_one (q : ℚ) (h : 0 ≤ q) : q < (pyInt q : ℚ) + 1 := by
  rw [pyInt_of_nonneg q h]
  exact Int.lt_floor_add_one q

/-
  Image data model.  A PIL image is a rectangular pixel grid with a color
  mode.  Pixels are stored uniformly as RGBA quadruples; in an opaque mode
  the alpha component is 255.
-/

/-- An RGBA pixel value. -/
structure Pixel where
  r : ℕ
  g : ℕ
  b : ℕ
  a : ℕ
deriving DecidableEq

/-- A PIL image buffer: dimensions, color mode, and pixel contents. -/
structure Image where
  width : ℕ
  height : ℕ
  mode : String
  pixel : ℕ → ℕ → Pixel

/-- PIL mode conversion of a single pixel value.  Converting to an opaque
mode discards alpha (the surviving channels are unchanged and the result is
fully opaque); converting an opaque image to RGBA attaches a fully opaque
alpha channel. -/
def convertPixel (src tgt : String) (p : Pixel) : Pixel :=
  if tgt = "RGB" then { r := p.r, g := p.g, b := p.b, a := 255 }
  else if tgt = "RGBA" ∧ src ≠ "RGBA" then { r := p.r, g := p.g, b := p.b, a := 255 }
  else p

/-- PIL `Image.convert`: change the color mode, converting every pixel. -/
def Image.convert (img : Image) (m : String) : Image :=
  { width := img.width, height := img.height, mode := m,
    pixel := fun x y => convertPixel img.mode m (img.pixel x y) }

/-- PIL `Image.new`: a canvas of the given mode and size filled with one color. -/
def Image.new (m : String) (w h : ℕ) (c : Pixel) : Image :=
  { width := w, height := h, mode := m, pixel := fun _ _ => c }

/-- PIL `Image.resize` with a nearest-style sampling of the source grid.  The
claims under verification only concern the dimensions of resized images, so
the choice of resampling filter is immaterial; dimensions are exact. -/
def Image.resize (img : Image) (w h : ℕ) : Image :=
  { width := w, height := h, mode := img.mode,
    pixel := fun x y => img.pixel (x * img.width / w) (y * img.height / h) }

/-- PIL `Image.crop` with box `(l, u, r, b)`: the result is `(r-l) × (b-u)`;
coordinates outside the source are filled with zero in every band. -/
def Image.crop (img : Image) (l u r b : ℤ) : Image :=
  { width := (r - l).toNat, height := (b - u).toNat, mode := img.mode,
    pixel := fun x y =>
      if 0 ≤ l + x ∧ l + (x : ℤ) < img.width ∧ 0 ≤ u + y ∧ u + (y : ℤ) < img.height then
        img.pixel (l + (x : ℤ)).toNat (u + (y : ℤ)).toNat
      else ⟨0, 0, 0, 0⟩ }

/-- PIL `Image.paste` (no mask): overwrite the rectangle of the canvas whose
top-left corner is `(x0, y0)` with the pasted image; all other canvas pixels
are untouched. -/
def Image.paste (canvas img : Image) (x0 y0 : ℤ) : Image :=
  { width := canvas.width, height := canvas.height, mode := canvas.mode,
    pixel := fun x y =>
      if x0 ≤ (x : ℤ) ∧ (x : ℤ) < x0 + img.width ∧ y0 ≤ (y : ℤ) ∧ (y : ℤ) < y0 + img.height then
        img.pixel ((x : ℤ) - x0).toNat ((y : ℤ) - y0).toNat
      else canvas.pixel x y }

/-
  The pipeline functions of src/outpainting.py, translated line by line.
  Python truthiness of the optional `width`/`height` arguments is modelled by
  `truthyI`; Python float arithmetic by `fl53`-rounded rational arithmetic;
  Python `int()` by `pyInt`.
-/

/-- Python truthiness of an optional integer argument: `None` and `0` are
falsy, every other integer is truthy. -/
def truthyI : Option ℤ → Bool
  | none => false
  | some v => v != 0

/-- Method `_resize_image_with_proportions` (src/outpainting.py lines 25-38):
resize to the given width and/or height, deriving the missing dimension from
the aspect ratio; with neither target the image is returned unchanged. -/
def _resize_image_with_proportions (image : Image) (width height : Option ℤ) : Image :=
  if truthyI width && truthyI height then
    image.resize (width.getD 0).toNat (height.getD 0).toNat
  else if truthyI width then
    image.resize (width.getD 0).toNat
      (pyInt (fl53 ((image.height : ℚ) * fl53 ((width.getD 0 : ℚ) / (image.width : ℚ))))).toNat
  else if truthyI height then
    image.resize
      (pyInt (fl53 ((image.width : ℚ) * fl53 ((height.getD 0 : ℚ) / (image.height : ℚ))))).toNat
      (height.getD 0).toNat
  else image

/-- Method `load_image` (src/outpainting.py lines 16-23): decode the source
file (the decoded buffer is the argument here) and rescale it to the desired
working height. -/
def load_image (image : Image) (desired_height : ℤ) : Image :=
  _resize_image_with_proportions image none (some desired_height)

/-- Width of the padded canvas, `int(image.width * factor)` with
`factor = 1 + percentage * 2` (src/outpainting.py lines 46-48). -/
def padWidth (w : ℕ) (p : ℚ) : ℤ :=
  pyInt (fl53 ((w : ℚ) * fl53 (1 + fl53 (p * 2))))

/-- Horizontal paste offset of the original image inside the padded canvas,
`int(image.width * percentage)` (src/outpainting.py line 50). -/
def padOffset (w : ℕ) (p : ℚ) : ℤ :=
  pyInt (fl53 ((w : ℚ) * p))

/-- Method `_prepare_image` (src/outpainting.py lines 40-51): convert to RGBA,
create a fully transparent canvas widened by the padding factor, and paste the
source image at the computed horizontal offset. -/
def _prepare_image (image : Image) (percentage : ℚ) : Image :=
  (Image.new "RGBA" (padWidth (image.convert "RGBA").width percentage).toNat
      (image.convert "RGBA").height ⟨0, 0, 0, 0⟩).paste
    (image.convert "RGBA") (padOffset (image.convert "RGBA").width percentage) 0

/-- Method `_split_image` (src/outpainting.py lines 53-60): crop a left tile
at box `(0, 0, size.1, size.2)` and a right tile at box
`(width - size.1, 0, width, size.2)`. -/
def _split_image (image : Image) (size : ℕ × ℕ) : Image × Image :=
  (image.crop 0 0 size.1 size.2,
   image.crop ((image.width : ℤ) - size.1) 0 image.width size.2)

/-- Method `_combine_images` (src/outpainting.py lines 84-94): paste the left
tile at `(0, 0)` and the right tile at `(width - size, 0)` onto the canvas. -/
def _combine_images (size : ℕ) (original_image left_image right_image : Image) : Image :=
  (original_image.paste left_image 0 0).paste right_image
    ((original_image.width : ℤ) - size) 0

/-- The left tile submitted to the generation service
(src/outpainting.py lines 100-104). -/
def leftTile (size : ℕ) (percentage : ℚ) (image : Image) : Image :=
  (_split_image (_prepare_image image percentage) (size, size)).1

/-- The right tile submitted to the generation service
(src/outpainting.py lines 100-104). -/
def rightTile (size : ℕ) (percentage : ℚ) (image : Image) : Image :=
  (_split_image (_prepare_image image percentage) (size, size)).2

/-- Method `perform_outpainting` (src/outpainting.py lines 96-117).  The
external generation round trip (`_outpaint_image` followed by the URL fetch
and decode, lines 106-112) is abstracted as `gen`, per the spec's opaque
collaborator contract; a raised exception anywhere in that round trip is an
`Except.error`.  The second component of the result records the tiles sent to
the generation service, in order, modelling the issued network calls. -/
def perform_outpainting (size : ℕ) (percentage : ℚ) (gen : Image → Except String Image)
    (image : Image) : Except String Image × List Image :=
  match gen (leftTile size percentage image) with
  | Except.error e => (Except.error e, [leftTile size percentage image])
  | Except.ok left_gen =>
    match gen (rightTile size percentage image) with
    | Except.error e =>
        (Except.error e, [leftTile size percentage image, rightTile size percentage image])
    | Except.ok right_gen =>
        (Except.ok ((_combine_images size (_prepare_image image percentage)
            left_gen right_gen).convert "RGB"),
         [leftTile size percentage image, rightTile size percentage image])

/-- One iteration of the batch driver (src/outpainting.py lines 133-137):
load the image at the working height `size`, then run the pipeline. -/
def process_image (size : ℕ) (percentage : ℚ) (gen : Image → Except String Image)
    (img : Image) : Except String Image :=
  (perform_outpainting size percentage gen (load_image img (size : ℤ))).1

/-- The batch driver loop (src/outpainting.py lines 120-139): images are
processed sequentially; each successful result is written to the output
directory under the input's base name, and an uncaught exception aborts the
whole batch, so a failing image writes nothing and stops the loop.  The
result is the list of written output files plus the aborting error, if any. -/
def main_loop (size : ℕ) (percentage : ℚ) (gen : Image → Except String Image) :
    List (String × Image) → List (String × Image) × Option String
  | [] => ([], none)
  | (stem, img) :: rest =>
    match process_image size percentage gen img with
    | Except.error e => ([], some e)
    | Except.ok out =>
        ((stem, out) :: (main_loop size percentage gen rest).1,
         (main_loop size percentage gen rest).2)

/-
  Concrete fixtures for witnesses and counterexamples.
-/

/-- A 6×4 RGB image with position-dependent pixels. -/
def testImage : Image := ⟨6, 4, "RGB", fun x y => ⟨x, y, 0, 255⟩⟩

/-- A 2×2 RGB image with constant pixels. -/
def smallImage : Image := ⟨2, 2, "RGB", fun _ _ => ⟨7, 7, 7, 255⟩⟩

/-- A 10×2 RGB image with constant pixels. -/
def testImage10 : Image := ⟨10, 2, "RGB", fun _ _ => ⟨9, 9, 9, 255⟩⟩

/-- A 3×2 RGB image with constant pixels. -/
def testImage3x2 : Image := ⟨3, 2, "RGB", fun _ _ => ⟨9, 9, 9, 255⟩⟩

/-- A generation service that replies to every request with the submitted
tile itself. -/
def okGen : Image → Except String Image := fun t => Except.ok t

/-- A generation service whose round trip always fails (for example, the
returned result URL is unreachable). -/
def failGen : Image → Except String Image := fun _ => Except.error "unreachable result URL"

/-- The pipeline result for `smallImage` under `okGen` with tile size 4 and
padding fraction 0. -/
def finalOut : Image :=
  (_combine_images 4 (_prepare_image smallImage 0)
    (leftTile 4 0 smallImage) (rightTile 4 0 smallImage)).convert "RGB"

/-- Evaluate `pyInt` at a concrete nonnegative rational. -/
theorem pyInt_eq (q : ℚ) (n : ℤ) (h0 : 0 ≤ q) (h1 : (n : ℚ) ≤ q) (h2 : q < (n : ℚ) + 1) :
    pyInt q = n := by
  rw [pyInt_of_nonneg _ h0, Int.floor_eq_iff]
  exact ⟨h1, h2⟩

theorem fl53_one : fl53 1 = 1 :=
  fl53_eq_self 1 0 4503599627370496 one_pos (by norm_num) (by norm_num) (by norm_num)

theorem fl53_two : fl53 2 = 2 :=
  fl53_eq_self 2 1 4503599627370496 two_pos (by norm_num) (by norm_num) (by norm_num)

/-- With padding fraction 0, the padded width of a 2-pixel-wide image is 2. -/
theorem padWidth_two_zero : padWidth 2 0 = 2 := by
  have e1 : fl53 ((0 : ℚ) * 2) = 0 := by rw [zero_mul, fl53_zero]
  have e2 : fl53 (1 + (0 : ℚ)) = 1 := by rw [add_zero]; exact fl53_one
  have e3 : fl53 (((2 : ℕ) : ℚ) * 1) = 2 := by
    rw [mul_one]
    push_cast
    exact fl53_two
  rw [padWidth, e1, e2, e3]
  exact pyInt_eq 2 2 (by norm_num) (by norm_num) (by norm_num)

/-
  Claim theorems.
-/

/-- C10: the resize helper called with neither a target width nor a target
height returns the input image unchanged. -/
theorem resize_no_target_identity (image : Image) :
    _resize_image_with_proportions image none none = image := rfl

/-- C3: for every padded canvas and tile size `t` smaller than the canvas
width, the splitter returns exactly the two crops `crop(0, 0, t, t)` and
`crop(width − t, 0, width, t)`: both tiles are `t × t`, the left tile
reproduces the canvas pixels of columns `[0, t)`, and the right tile
reproduces the canvas pixels of columns `[width − t, width)`. -/
theorem splitter_tiles (img : Image) (t : ℕ) (ht : t < img.width) :
    ((_split_image img (t, t)).1.width = t ∧ (_split_image img (t, t)).1.height = t ∧
      (_split_image img (t, t)).2.width = t ∧ (_split_image img (t, t)).2.height = t) ∧
    (∀ x y, x < t → y < t → y < img.height →
      (_split_image img (t, t)).1.pixel x y = img.pixel x y) ∧
    (∀ x y, x < t → y < t → y < img.height →
      (_split_image img (t, t)).2.pixel x y = img.pixel (img.width - t + x) y) := by
  refine ⟨⟨?_, ?_, ?_, ?_⟩, ?_, ?_⟩
  · simp [_split_image, Image.crop]
  · simp [_split_image, Image.crop]
  · simp only [_split_image, Image.crop]
    omega
  · simp [_split_image, Image.crop]
  · intro x y hx hy hyh
    simp only [_split_image, Image.crop]
    rw [if_pos (by omega)]
    congr 1 <;> omega
  · intro x y hx hy hyh
    simp only [_split_image, Image.crop]
    rw [if_pos (by omega)]
    congr 1 <;> omega

/-- Witness for C3 at the 6×4 test image with tile size 2. -/
theorem splitter_tiles_witness :
    2 < testImage.width ∧
    (((_split_image testImage (2, 2)).1.width = 2 ∧
        (_split_image testImage (2, 2)).1.height = 2 ∧
        (_split_image testImage (2, 2)).2.width = 2 ∧
        (_split_image testImage (2, 2)).2.height = 2) ∧
      (∀ x y, x < 2 → y < 2 → y < testImage.height →
        (_split_image testImage (2, 2)).1.pixel x y = testImage.pixel x y) ∧
      (∀ x y, x < 2 → y < 2 → y < testImage.height →
        (_split_image testImage (2, 2)).2.pixel x y
          = testImage.pixel (testImage.width - 2 + x) y)) :=
  ⟨by norm_num [testImage], splitter_tiles testImage 2 (by norm_num [testImage])⟩

/-- C4: extracting the two tiles and pasting them back at the extraction
offsets — left at `(0,0)`, right at `(width − t, 0)` — leaves every canvas
pixel outside the two tile windows unchanged. -/
theorem crop_paste_roundtrip (img : Image) (t : ℕ) (ht : t < img.width) (x y : ℕ)
    (hx : x < img.width) (hy : y < img.height)
    (hL : ¬(x < t ∧ y < t)) (hR : ¬(img.width - t ≤ x ∧ y < t)) :
    (_combine_images t img (_split_image img (t, t)).1 (_split_image img (t, t)).2).pixel x y
      = img.pixel x y := by
  simp only [_combine_images, _split_image, Image.paste, Image.crop]
  rw [if_neg (by omega), if_neg (by omega)]

/-- Witness for C4 at the 6×4 test image, tile size 2, pixel (2, 0). -/
theorem crop_paste_roundtrip_witness :
    (2 < testImage.width ∧ 2 < testImage.width ∧ 0 < testImage.height ∧
      ¬((2 : ℕ) < 2 ∧ (0 : ℕ) < 2) ∧ ¬(testImage.width - 2 ≤ 2 ∧ (0 : ℕ) < 2)) ∧
    (_combine_images 2 testImage (_split_image testImage (2, 2)).1
        (_split_image testImage (2, 2)).2).pixel 2 0 = testImage.pixel 2 0 :=
  ⟨⟨by norm_num [testImage], by norm_num [testImage], by norm_num [testImage],
      by norm_num, by norm_num [testImage]⟩,
    crop_paste_roundtrip testImage 2 (by norm_num [testImage]) 2 0
      (by norm_num [testImage]) (by norm_num [testImage]) (by norm_num)
      (by norm_num [testImage])⟩

/-- C5 counterexample: with a 2-pixel padded canvas and tile size 4 the
geometry violates the splitter precondition (`paddedWidth ≤ tileSize`), yet
the pipeline raises no error of any kind — there is no `GeometryError` in the
code — and still issues both generation-service calls. -/
theorem no_geometry_error_counterexample :
    (_prepare_image smallImage 0).width ≤ 4 ∧
    (∃ o, (perform_outpainting 4 0 okGen smallImage).1 = Except.ok o) ∧
    (perform_outpainting 4 0 okGen smallImage).2.length = 2 := by
  refine ⟨?_, ⟨finalOut, rfl⟩, rfl⟩
  show (padWidth (smallImage.convert "RGBA").width 0).toNat ≤ 4
  have : (smallImage.convert "RGBA").width = 2 := rfl
  rw [this, padWidth_two_zero]
  norm_num

/-- C5 amended: the pipeline performs no geometry validation at all.  For
every image, tile size, and padding fraction — the invalid geometry
`paddedWidth ≤ tileSize` included — it raises no error when the generation
service succeeds, and it always issues exactly the two generation calls, left
tile first. -/
theorem pipeline_always_calls_service (size : ℕ) (p : ℚ) (gen : Image → Except String Image)
    (img : Image) (hgen : ∀ t, ∃ u, gen t = Except.ok u) :
    (∃ o, (perform_outpainting size p gen img).1 = Except.ok o) ∧
    (perform_outpainting size p gen img).2 = [leftTile size p img, rightTile size p img] := by
  obtain ⟨u, hu⟩ := hgen (leftTile size p img)
  obtain ⟨v, hv⟩ := hgen (rightTile size p img)
  simp [perform_outpainting, hu, hv]

/-- Witness for C5 amended: the always-succeeding service on the small image
with invalid geometry. -/
theorem pipeline_always_calls_service_witness :
    (∀ t, ∃ u, okGen t = Except.ok u) ∧
    ((∃ o, (perform_outpainting 4 0 okGen smallImage).1 = Except.ok o) ∧
      (perform_outpainting 4 0 okGen smallImage).2
        = [leftTile 4 0 smallImage, rightTile 4 0 smallImage]) :=
  ⟨fun t => ⟨t, rfl⟩,
    pipeline_always_calls_service 4 0 okGen smallImage (fun t => ⟨t, rfl⟩)⟩

/-- C6: whenever the pipeline returns a final image, that image is in opaque
RGB mode with every pixel fully opaque, whatever the input color mode. -/
theorem final_output_rgb (size : ℕ) (p : ℚ) (gen : Image → Except String Image)
    (img out : Image) (h : (perform_outpainting size p gen img).1 = Except.ok out) :
    out.mode = "RGB" ∧ ∀ x y, (out.pixel x y).a = 255 := by
  simp only [perform_outpainting] at h
  cases hL : gen (leftTile size p img) with
  | error e => rw [hL] at h; simp at h
  | ok lg =>
    cases hR : gen (rightTile size p img) with
    | error e => rw [hL, hR] at h; simp at h
    | ok rg =>
      rw [hL, hR] at h
      simp only [Except.ok.injEq] at h
      subst h
      exact ⟨rfl, fun x y => by simp [Image.convert, convertPixel]⟩

/-- Witness for C6 at the small image under the echoing service. -/
theorem final_output_rgb_witness :
    (perform_outpainting 4 0 okGen smallImage).1 = Except.ok finalOut ∧
    (finalOut.mode = "RGB" ∧ ∀ x y, (finalOut.pixel x y).a = 255) :=
  ⟨rfl, final_output_rgb 4 0 okGen smallImage finalOut rfl⟩

/-- C9: an output file is written only for an input whose whole pipeline
succeeded.  If every batch entry with a given base name fails, no output with
that base name is written — a failed image produces no (partial) output. -/
theorem no_output_on_failure (size : ℕ) (p : ℚ) (gen : Image → Except String Image)
    (batch : List (String × Image)) (stem : String)
    (hfail : ∀ img, (stem, img) ∈ batch → ∀ o, process_image size p gen img ≠ Except.ok o) :
    ∀ o, (stem, o) ∉ (main_loop size p gen batch).1 := by
  induction batch with
  | nil => intro o h; simp [main_loop] at h
  | cons head rest ih =>
    obtain ⟨m, img⟩ := head
    intro o h
    simp only [main_loop] at h
    cases hp : process_image size p gen img with
    | error e => rw [hp] at h; simp at h
    | ok out =>
      rw [hp] at h
      simp only [List.mem_cons, Prod.mk.injEq] at h
      rcases h with ⟨hm, _⟩ | hmem
      · exact hfail img (by rw [hm]; exact List.mem_cons_self _ _) out hp
      · exact ih (fun i hi => hfail i (List.mem_cons_of_mem _ hi)) o hmem

/-- Witness for C9: a batch of one image whose generation round trip fails
(unreachable result URL) writes no output file. -/
theorem no_output_on_failure_witness :
    (∀ img, ("cat", img) ∈ [("cat", smallImage)] →
      ∀ o, process_image 4 0 failGen img ≠ Except.ok o) ∧
    ∀ o, ("cat", o) ∉ (main_loop 4 0 failGen [("cat", smallImage)]).1 :=
  ⟨fun img hmem o hc => by
      simp only [List.mem_singleton, Prod.mk.injEq, true_and] at hmem
      rw [hmem] at hc
      exact Except.noConfusion hc,
    no_output_on_failure 4 0 failGen [("cat", smallImage)] "cat"
      (fun img hmem o hc => by
        simp only [List.mem_singleton, Prod.mk.injEq, true_and] at hmem
        rw [hmem] at hc
        exact Except.noConfusion hc)⟩

/-
  Accumulated rounding-error bounds for the geometry computed by the padder
  and the loader.
-/

theorem padWidth_nonneg (w : ℕ) (p : ℚ) (hp : 0 ≤ p) : 0 ≤ padWidth w p := by
  have h1 : 0 ≤ fl53 (p * 2) := fl53_nonneg _ (mul_nonneg hp (by norm_num))
  have h2 : 0 ≤ fl53 (1 + fl53 (p * 2)) := fl53_nonneg _ (by linarith)
  exact pyInt_nonneg _ (fl53_nonneg _ (mul_nonneg (Nat.cast_nonneg w) h2))

/-- The padded width computed with three double roundings and a final
truncation stays within a relative factor `2 ^ (-50)` (plus the unit lost to
truncation) of the exact value `w * (1 + 2p)`. -/
theorem padWidth_bounds (w : ℕ) (p : ℚ) (hp : 0 ≤ p) :
    (w : ℚ) * (1 + 2 * p) * (1 - eps50) - 1 < (padWidth w p : ℚ) ∧
    (padWidth w p : ℚ) ≤ (w : ℚ) * (1 + 2 * p) * (1 + eps50) := by
  have heps : (0 : ℚ) < eps53 := by rw [eps53]; norm_num
  have heps1 : eps53 < 1 := by rw [eps53]; norm_num
  have hw : (0 : ℚ) ≤ (w : ℚ) := Nat.cast_nonneg w
  have ha := fl53_bounds (p * 2) (mul_nonneg hp (by norm_num))
  have ha0 : 0 ≤ fl53 (p * 2) := fl53_nonneg _ (mul_nonneg hp (by norm_num))
  have hb := fl53_bounds (1 + fl53 (p * 2)) (by linarith)
  have hb0 : 0 ≤ fl53 (1 + fl53 (p * 2)) := fl53_nonneg _ (by linarith)
  have hc := fl53_bounds ((w : ℚ) * fl53 (1 + fl53 (p * 2))) (mul_nonneg hw hb0)
  have hc0 : 0 ≤ fl53 ((w : ℚ) * fl53 (1 + fl53 (p * 2))) := fl53_nonneg _ (mul_nonneg hw hb0)
  set a := fl53 (p * 2) with ha_def
  set b := fl53 (1 + a) with hb_def
  set c := fl53 ((w : ℚ) * b) with hc_def
  have hb_up : b ≤ (1 + 2 * p) * (1 + eps53) ^ 2 := by
    nlinarith [ha.2, hb.2, mul_nonneg hp heps.le,
      mul_le_mul_of_nonneg_right ha.2 (by linarith : (0:ℚ) ≤ 1 + eps53)]
  have hb_lo : (1 + 2 * p) * (1 - eps53) ^ 2 ≤ b := by
    nlinarith [ha.1, hb.1, mul_nonneg hp heps.le,
      mul_le_mul_of_nonneg_right ha.1 (by linarith : (0:ℚ) ≤ 1 - eps53)]
  have hc_up : c ≤ (w : ℚ) * ((1 + 2 * p) * (1 + eps53) ^ 3) :=
    calc c ≤ (w : ℚ) * b * (1 + eps53) := hc.2
      _ ≤ ((w : ℚ) * ((1 + 2 * p) * (1 + eps53) ^ 2)) * (1 + eps53) :=
          mul_le_mul_of_nonneg_right (mul_le_mul_of_nonneg_left hb_up hw) (by linarith)
      _ = (w : ℚ) * ((1 + 2 * p) * (1 + eps53) ^ 3) := by ring
  have hc_lo : (w : ℚ) * ((1 + 2 * p) * (1 - eps53) ^ 3) ≤ c :=
    calc (w : ℚ) * ((1 + 2 * p) * (1 - eps53) ^ 3)
        = ((w : ℚ) * ((1 + 2 * p) * (1 - eps53) ^ 2)) * (1 - eps53) := by ring
      _ ≤ ((w : ℚ) * b) * (1 - eps53) :=
          mul_le_mul_of_nonneg_right (mul_le_mul_of_nonneg_left hb_lo hw) (by linarith)
      _ ≤ c := hc.1
  have hnum_up : ((1 : ℚ) + eps53) ^ 3 ≤ 1 + eps50 := by rw [eps53, eps50]; norm_num
  have hnum_lo : (1 : ℚ) - eps50 ≤ (1 - eps53) ^ 3 := by rw [eps53, eps50]; norm_num
  have hp2 : (0 : ℚ) ≤ 1 + 2 * p := by linarith
  have hfin_up : c ≤ (w : ℚ) * (1 + 2 * p) * (1 + eps50) :=
    calc c ≤ (w : ℚ) * ((1 + 2 * p) * (1 + eps53) ^ 3) := hc_up
      _ ≤ (w : ℚ) * ((1 + 2 * p) * (1 + eps50)) :=
          mul_le_mul_of_nonneg_left (mul_le_mul_of_nonneg_left hnum_up hp2) hw
      _ = (w : ℚ) * (1 + 2 * p) * (1 + eps50) := by ring
  have hfin_lo : (w : ℚ) * (1 + 2 * p) * (1 - eps50) ≤ c :=
    calc (w : ℚ) * (1 + 2 * p) * (1 - eps50)
        = (w : ℚ) * ((1 + 2 * p) * (1 - eps50)) := by ring
      _ ≤ (w : ℚ) * ((1 + 2 * p) * (1 - eps53) ^ 3) :=
          mul_le_mul_of_nonneg_left (mul_le_mul_of_nonneg_left hnum_lo hp2) hw
      _ ≤ c := hc_lo
  have hpw : padWidth w p = pyInt c := rfl
  constructor
  · have hlt := lt_pyInt_add_one c hc0
    rw [hpw]
    linarith
  · have hle := pyInt_le c hc0
    rw [hpw]
    linarith

/-- The loader width, computed with two double roundings and a final
truncation, stays within a relative factor `2 ^ (-51)` (plus the truncated
unit) of the exact value `W * T / H`. -/
theorem loaderWidth_bounds (W H T : ℕ) (hH : 0 < H) :
    (W : ℚ) * T / H * (1 - eps51) - 1
        < (pyInt (fl53 ((W : ℚ) * fl53 ((T : ℚ) / (H : ℚ)))) : ℚ) ∧
    (pyInt (fl53 ((W : ℚ) * fl53 ((T : ℚ) / (H : ℚ)))) : ℚ)
        ≤ (W : ℚ) * T / H * (1 + eps51) := by
  have heps : (0 : ℚ) < eps53 := by rw [eps53]; norm_num
  have heps1 : eps53 < 1 := by rw [eps53]; norm_num
  have hW : (0 : ℚ) ≤ (W : ℚ) := Nat.cast_nonneg W
  have hq0 : (0 : ℚ) ≤ (T : ℚ) / (H : ℚ) := div_nonneg (Nat.cast_nonneg T) (Nat.cast_nonneg H)
  have hr := fl53_bounds ((T : ℚ) / (H : ℚ)) hq0
  have hr0 : 0 ≤ fl53 ((T : ℚ) / (H : ℚ)) := fl53_nonneg _ hq0
  have hm := fl53_bounds ((W : ℚ) * fl53 ((T : ℚ) / (H : ℚ))) (mul_nonneg hW hr0)
  have hm0 : 0 ≤ fl53 ((W : ℚ) * fl53 ((T : ℚ) / (H : ℚ))) := fl53_nonneg _ (mul_nonneg hW hr0)
  set r := fl53 ((T : ℚ) / (H : ℚ)) with hr_def
  set m := fl53 ((W : ℚ) * r) with hm_def
  have hm_up : m ≤ (W : ℚ) * ((T : ℚ) / (H : ℚ)) * (1 + eps53) ^ 2 :=
    calc m ≤ (W : ℚ) * r * (1 + eps53) := hm.2
      _ ≤ ((W : ℚ) * ((T : ℚ) / (H : ℚ) * (1 + eps53))) * (1 + eps53) :=
          mul_le_mul_of_nonneg_right (mul_le_mul_of_nonneg_left hr.2 hW) (by linarith)
      _ = (W : ℚ) * ((T : ℚ) / (H : ℚ)) * (1 + eps53) ^ 2 := by ring
  have hm_lo : (W : ℚ) * ((T : ℚ) / (H : ℚ)) * (1 - eps53) ^ 2 ≤ m :=
    calc (W : ℚ) * ((T : ℚ) / (H : ℚ)) * (1 - eps53) ^ 2
        = ((W : ℚ) * ((T : ℚ) / (H : ℚ) * (1 - eps53))) * (1 - eps53) := by ring
      _ ≤ ((W : ℚ) * r) * (1 - eps53) :=
          mul_le_mul_of_nonneg_right (mul_le_mul_of_nonneg_left hr.1 hW) (by linarith)
      _ ≤ m := hm.1
  have hnum_up : ((1 : ℚ) + eps53) ^ 2 ≤ 1 + eps51 := by rw [eps53, eps51]; norm_num
  have hnum_lo : (1 : ℚ) - eps51 ≤ (1 - eps53) ^ 2 := by rw [eps53, eps51]; norm_num
  have hwq : (0 : ℚ) ≤ (W : ℚ) * ((T : ℚ) / (H : ℚ)) := mul_nonneg hW hq0
  have hassoc : (W : ℚ) * (T : ℚ) / (H : ℚ) = (W : ℚ) * ((T : ℚ) / (H : ℚ)) := mul_div_assoc _ _ _
  have hfin_up : m ≤ (W : ℚ) * T / H * (1 + eps51) := by
    rw [hassoc]
    calc m ≤ (W : ℚ) * ((T : ℚ) / (H : ℚ)) * (1 + eps53) ^ 2 := hm_up
      _ ≤ (W : ℚ) * ((T : ℚ) / (H : ℚ)) * (1 + eps51) :=
          mul_le_mul_of_nonneg_left hnum_up hwq
  have hfin_lo : (W : ℚ) * T / H * (1 - eps51) ≤ m := by
    rw [hassoc]
    calc (W : ℚ) * ((T : ℚ) / (H : ℚ)) * (1 - eps51)
        ≤ (W : ℚ) * ((T : ℚ) / (H : ℚ)) * (1 - eps53) ^ 2 :=
          mul_le_mul_of_nonneg_left hnum_lo hwq
      _ ≤ m := hm_lo
  constructor
  · have hlt := lt_pyInt_add_one m hm0
    linarith
  · have hle := pyInt_le m hm0
    linarith

/-
  Claims about the padder and loader geometry (C1, C2, C7).
-/

/-- C1 counterexample: with width 10 and padding fraction 3/64 (an exactly
representable double, 0.046875), the Padder's canvas width is
`int(10 * 1.09375) = 10`, while the claimed formula `round(w * (1 + 2p))`
gives 11. -/
theorem padder_round_counterexample :
    (_prepare_image testImage10 (3/64)).width = 10 ∧
    round ((10 : ℚ) * (1 + 2 * (3/64))) = 11 ∧
    ((_prepare_image testImage10 (3/64)).width : ℤ) ≠ round ((10 : ℚ) * (1 + 2 * (3/64))) := by
  have e1 : fl53 ((3 : ℚ)/64 * 2) = 3/32 := by
    rw [show (3 : ℚ)/64 * 2 = 3/32 by norm_num]
    exact fl53_eq_self (3/32) (-4) 6755399441055744 (by norm_num) (by norm_num) (by norm_num)
      (by norm_num)
  have e2 : fl53 (1 + fl53 ((3 : ℚ)/64 * 2)) = 35/32 := by
    rw [e1, show (1 : ℚ) + 3/32 = 35/32 by norm_num]
    exact fl53_eq_self (35/32) 0 4925812092436480 (by norm_num) (by norm_num) (by norm_num)
      (by norm_num)
  have e3 : fl53 (((10 : ℕ) : ℚ) * fl53 (1 + fl53 ((3 : ℚ)/64 * 2))) = 175/16 := by
    rw [e2, show ((10 : ℕ) : ℚ) * (35/32) = 175/16 by norm_num]
    exact fl53_eq_self (175/16) 3 6157265115545600 (by norm_num) (by norm_num) (by norm_num)
      (by norm_num)
  have hw : (_prepare_image testImage10 (3/64)).width = 10 := by
    show (padWidth (testImage10.convert "RGBA").width (3/64)).toNat = 10
    show (padWidth 10 (3/64)).toNat = 10
    rw [padWidth, e3, pyInt_eq (175/16) 10 (by norm_num) (by norm_num) (by norm_num)]
    rfl
  have hround : round ((10 : ℚ) * (1 + 2 * (3/64))) = 11 := by
    rw [show (10 : ℚ) * (1 + 2 * (3/64)) = 175/16 by norm_num, round_eq, Int.floor_eq_iff]
    norm_num
  exact ⟨hw, hround, by rw [hw, hround]; norm_num⟩

/-- C1 amended: the Padder leaves the height unchanged, and its canvas width
is the double-precision truncation `int(w * (1 + p*2))` — not the rounding
`round(w * (1 + 2p))` — which lies within a relative `2 ^ (-50)` band (minus
at most one truncated unit) of `w * (1 + 2p)`. -/
theorem padder_dims_amended (img : Image) (p : ℚ) (hp : 0 ≤ p) :
    (_prepare_image img p).height = img.height ∧
    ((img.width : ℚ) * (1 + 2 * p) * (1 - eps50) - 1 < ((_prepare_image img p).width : ℚ) ∧
      ((_prepare_image img p).width : ℚ) ≤ (img.width : ℚ) * (1 + 2 * p) * (1 + eps50)) := by
  refine ⟨rfl, ?_⟩
  have hcast : (((_prepare_image img p).width : ℕ) : ℚ) = ((padWidth img.width p : ℤ) : ℚ) := by
    show (((padWidth img.width p).toNat : ℕ) : ℚ) = ((padWidth img.width p : ℤ) : ℚ)
    have h := Int.toNat_of_nonneg (padWidth_nonneg img.width p hp)
    exact_mod_cast h
  rw [hcast]
  exact ⟨(padWidth_bounds img.width p hp).1, (padWidth_bounds img.width p hp).2⟩

/-- Witness for C1 amended at the 6×4 test image with padding fraction 1/4. -/
theorem padder_dims_amended_witness :
    (0 : ℚ) ≤ 1/4 ∧
    ((_prepare_image testImage (1/4)).height = testImage.height ∧
      ((testImage.width : ℚ) * (1 + 2 * (1/4)) * (1 - eps50) - 1
          < ((_prepare_image testImage (1/4)).width : ℚ) ∧
        ((_prepare_image testImage (1/4)).width : ℚ)
          ≤ (testImage.width : ℚ) * (1 + 2 * (1/4)) * (1 + eps50))) :=
  ⟨by norm_num, padder_dims_amended testImage (1/4) (by norm_num)⟩

/-- C2 counterexample: a 3×2 source resized to target height 1 gets width
`int(3 * 0.5) = 1`, while the claimed formula `round(W * T / H)` gives 2. -/
theorem loader_round_counterexample :
    (load_image testImage3x2 1).width = 1 ∧
    round ((3 : ℚ) * 1 / 2) = 2 ∧
    ((load_image testImage3x2 1).width : ℤ) ≠ round ((3 : ℚ) * 1 / 2) := by
  have e1 : fl53 (((1 : ℤ) : ℚ) / ((2 : ℕ) : ℚ)) = 1/2 := by
    rw [show ((1 : ℤ) : ℚ) / ((2 : ℕ) : ℚ) = 1/2 by norm_num]
    exact fl53_eq_self (1/2) (-1) 4503599627370496 (by norm_num) (by norm_num) (by norm_num)
      (by norm_num)
  have e2 : fl53 (((3 : ℕ) : ℚ) * fl53 (((1 : ℤ) : ℚ) / ((2 : ℕ) : ℚ))) = 3/2 := by
    rw [e1, show ((3 : ℕ) : ℚ) * (1/2) = 3/2 by norm_num]
    exact fl53_eq_self (3/2) 0 6755399441055744 (by norm_num) (by norm_num) (by norm_num)
      (by norm_num)
  have hw : (load_image testImage3x2 1).width = 1 := by
    show (_resize_image_with_proportions testImage3x2 none (some 1)).width = 1
    rw [_resize_image_with_proportions]
    rw [if_neg (by simp [truthyI]), if_neg (by simp [truthyI]), if_pos (by simp [truthyI])]
    show (pyInt (fl53 ((testImage3x2.width : ℚ)
      * fl53 ((((some (1:ℤ)).getD 0 : ℤ) : ℚ) / (testImage3x2.height : ℚ))))).toNat = 1
    show (pyInt (fl53 (((3 : ℕ) : ℚ) * fl53 (((1 : ℤ) : ℚ) / ((2 : ℕ) : ℚ))))).toNat = 1
    rw [e2, pyInt_eq (3/2) 1 (by norm_num) (by norm_num) (by norm_num)]
    rfl
  have hround : round ((3 : ℚ) * 1 / 2) = 2 := by
    rw [show (3 : ℚ) * 1 / 2 = 3/2 by norm_num, round_eq, Int.floor_eq_iff]
    norm_num
  exact ⟨hw, hround, by rw [hw, hround]; norm_num⟩

/-- C2 amended: for a positive target height `T` and a source of positive
height, the Loader returns an image of height exactly `T`, and of width equal
to the double-precision truncation `int(W * (T / H))` — not `round(W * T / H)`
— which lies within a relative `2 ^ (-51)` band (minus at most one truncated
unit) of `W * T / H`. -/
theorem loader_dims_amended (img : Image) (T : ℕ) (hT : 0 < T) (hH : 0 < img.height) :
    (load_image img (T : ℤ)).height = T ∧
    ((img.width : ℚ) * T / img.height * (1 - eps51) - 1 < ((load_image img (T : ℤ)).width : ℚ) ∧
      ((load_image img (T : ℤ)).width : ℚ) ≤ (img.width : ℚ) * T / img.height * (1 + eps51)) := by
  have hres : load_image img (T : ℤ) = img.resize
      (pyInt (fl53 ((img.width : ℚ) * fl53 ((((T : ℤ) : ℤ) : ℚ) / (img.height : ℚ))))).toNat
      ((T : ℤ)).toNat := by
    show _resize_image_with_proportions img none (some (T : ℤ)) = _
    rw [_resize_image_with_proportions]
    rw [if_neg (by simp [truthyI]), if_neg (by simp [truthyI]),
      if_pos (by simp [truthyI]; exact_mod_cast hT.ne')]
    rfl
  rw [hres]
  refine ⟨by simp [Image.resize], ?_⟩
  have hcastT : ((((T : ℤ) : ℤ) : ℚ)) = ((T : ℕ) : ℚ) := by push_cast; ring
  rw [hcastT]
  have hnn : 0 ≤ fl53 ((img.width : ℚ) * fl53 (((T : ℕ) : ℚ) / (img.height : ℚ))) :=
    fl53_nonneg _ (mul_nonneg (Nat.cast_nonneg _)
      (fl53_nonneg _ (div_nonneg (Nat.cast_nonneg _) (Nat.cast_nonneg _))))
  have hcast : (((img.resize
      (pyInt (fl53 ((img.width : ℚ) * fl53 (((T : ℕ) : ℚ) / (img.height : ℚ))))).toNat
      ((T : ℤ)).toNat).width : ℕ) : ℚ)
      = ((pyInt (fl53 ((img.width : ℚ) * fl53 (((T : ℕ) : ℚ) / (img.height : ℚ)))) : ℤ) : ℚ) := by
    show (((pyInt (fl53 ((img.width : ℚ)
      * fl53 (((T : ℕ) : ℚ) / (img.height : ℚ))))).toNat : ℚ)) = _
    have h := Int.toNat_of_nonneg (pyInt_nonneg _ hnn)
    exact_mod_cast h
  rw [hcast]
  exact loaderWidth_bounds img.width img.height T hH

/-- Witness for C2 amended at the 6×4 test image with target height 8. -/
theorem loader_dims_amended_witness :
    (0 < 8 ∧ 0 < testImage.height) ∧
    ((load_image testImage ((8 : ℕ) : ℤ)).height = 8 ∧
      ((testImage.width : ℚ) * 8 / testImage.height * (1 - eps51) - 1
          < ((load_image testImage ((8 : ℕ) : ℤ)).width : ℚ) ∧
        ((load_image testImage ((8 : ℕ) : ℤ)).width : ℚ)
          ≤ (testImage.width : ℚ) * 8 / testImage.height * (1 + eps51))) :=
  ⟨⟨by norm_num, by norm_num [testImage]⟩,
    loader_dims_amended testImage 8 (by norm_num) (by norm_num [testImage])⟩

theorem padOffset_nonneg (w : ℕ) (p : ℚ) (hp : 0 ≤ p) : 0 ≤ padOffset w p :=
  pyInt_nonneg _ (fl53_nonneg _ (mul_nonneg (Nat.cast_nonneg w) hp))

/-- The paste offset computed with one double rounding and a truncation stays
within a relative factor `2 ^ (-52)` (plus the truncated unit) of `w * p`. -/
theorem padOffset_bounds (w : ℕ) (p : ℚ) (hp : 0 ≤ p) :
    (w : ℚ) * p * (1 - eps52) - 1 < (padOffset w p : ℚ) ∧
    (padOffset w p : ℚ) ≤ (w : ℚ) * p * (1 + eps52) := by
  have hwp : (0 : ℚ) ≤ (w : ℚ) * p := mul_nonneg (Nat.cast_nonneg w) hp
  have hf := fl53_bounds ((w : ℚ) * p) hwp
  have hf0 : 0 ≤ fl53 ((w : ℚ) * p) := fl53_nonneg _ hwp
  have hee : eps53 ≤ eps52 := by rw [eps53, eps52]; norm_num
  have h1 : (w : ℚ) * p * (1 + eps53) ≤ (w : ℚ) * p * (1 + eps52) :=
    mul_le_mul_of_nonneg_left (by linarith) hwp
  have h2 : (w : ℚ) * p * (1 - eps52) ≤ (w : ℚ) * p * (1 - eps53) :=
    mul_le_mul_of_nonneg_left (by linarith) hwp
  have hpo : padOffset w p = pyInt (fl53 ((w : ℚ) * p)) := rfl
  constructor
  · have hlt := lt_pyInt_add_one _ hf0
    rw [hpo]
    linarith [hf.1]
  · have hle := pyInt_le _ hf0
    rw [hpo]
    linarith [hf.2]

/-- C7 counterexample: with width 10 and padding fraction 3/32 (an exactly
representable double, 0.09375), the Padder pastes at horizontal offset
`int(10 * 0.09375) = 0`, while the claimed formula `round(w * p)` gives 1;
accordingly column 0 of the canvas holds the source image, not transparent
padding. -/
theorem padOffset_round_counterexample :
    padOffset 10 (3/32) = 0 ∧
    round ((10 : ℚ) * (3/32)) = 1 ∧
    (_prepare_image testImage10 (3/32)).pixel 0 0 = ⟨9, 9, 9, 255⟩ := by
  have e1 : fl53 (((10 : ℕ) : ℚ) * (3/32)) = 15/16 := by
    rw [show ((10 : ℕ) : ℚ) * (3/32) = 15/16 by norm_num]
    exact fl53_eq_self (15/16) (-1) 8444249301319680 (by norm_num) (by norm_num) (by norm_num)
      (by norm_num)
  have hoff : padOffset 10 (3/32) = 0 := by
    rw [padOffset, e1]
    exact pyInt_eq (15/16) 0 (by norm_num) (by norm_num) (by norm_num)
  refine ⟨hoff, ?_, ?_⟩
  · rw [show (10 : ℚ) * (3/32) = 15/16 by norm_num, round_eq, Int.floor_eq_iff]
    norm_num
  · show (Image.paste _ (testImage10.convert "RGBA")
      (padOffset (testImage10.convert "RGBA").width (3/32)) 0).pixel 0 0 = ⟨9, 9, 9, 255⟩
    have hw10 : (testImage10.convert "RGBA").width = 10 := rfl
    rw [Image.paste]
    simp only [hw10]
    rw [hoff]
    rw [if_pos (by simp [testImage10, Image.convert])]
    simp [testImage10, Image.convert, convertPixel]

/-- C7 amended: the Padder converts the source to RGBA and pastes it at
vertical offset 0 onto a fully transparent canvas, but at horizontal offset
`int(w * p)` computed in double precision (a truncation within a relative
`2 ^ (-52)` band, minus at most one unit, of `w * p`) — not `round(w * p)`. -/
theorem padder_layout_amended (img : Image) (p : ℚ) (hp : 0 ≤ p) :
    (_prepare_image img p).mode = "RGBA" ∧
    (∀ x y, (_prepare_image img p).pixel x y =
      if padOffset img.width p ≤ (x : ℤ) ∧ (x : ℤ) < padOffset img.width p + img.width
          ∧ y < img.height
      then (img.convert "RGBA").pixel ((x : ℤ) - padOffset img.width p).toNat y
      else ⟨0, 0, 0, 0⟩) ∧
    ((img.width : ℚ) * p * (1 - eps52) - 1 < (padOffset img.width p : ℚ) ∧
      (padOffset img.width p : ℚ) ≤ (img.width : ℚ) * p * (1 + eps52)) := by
  refine ⟨rfl, ?_, padOffset_bounds img.width p hp⟩
  intro x y
  show (Image.paste _ (img.convert "RGBA")
      (padOffset (img.convert "RGBA").width p) 0).pixel x y = _
  have hwc : (img.convert "RGBA").width = img.width := rfl
  have hhc : (img.convert "RGBA").height = img.height := rfl
  rw [Image.paste]
  simp only [hwc, hhc]
  split_ifs
  · rw [show ((y : ℤ) - 0).toNat = y by omega]
  · exfalso; omega
  · exfalso; omega
  · rfl

/-- Witness for C7 amended at the 6×4 test image with padding fraction 1/4. -/
theorem padder_layout_amended_witness :
    (0 : ℚ) ≤ 1/4 ∧
    ((_prepare_image testImage (1/4)).mode = "RGBA" ∧
      (∀ x y, (_prepare_image testImage (1/4)).pixel x y =
        if padOffset testImage.width (1/4) ≤ (x : ℤ)
            ∧ (x : ℤ) < padOffset testImage.width (1/4) + testImage.width
            ∧ y < testImage.height
        then (testImage.convert "RGBA").pixel ((x : ℤ) - padOffset testImage.width (1/4)).toNat y
        else ⟨0, 0, 0, 0⟩) ∧
      ((testImage.width : ℚ) * (1/4) * (1 - eps52) - 1 < (padOffset testImage.width (1/4) : ℚ) ∧
        (padOffset testImage.width (1/4) : ℚ)
          ≤ (testImage.width : ℚ) * (1/4) * (1 + eps52))) :=
  ⟨by norm_num, padder_layout_amended testImage (1/4) (by norm_num)⟩

/-
  The concrete 1600×1200 scenario (C8).
-/

/-- A 1600×1200 RGB source image. -/
def img1600 : Image := ⟨1600, 1200, "RGB", fun _ _ => ⟨5, 5, 5, 255⟩⟩

/-- The IEEE-754 double nearest to 0.2, i.e. the value of the Python literal
`0.2`. -/
def float0p2 : ℚ := 3602879701896397 / 2 ^ 54

/-- Certification that `float0p2` is exactly the 53-bit rounding of 1/5. -/
theorem float0p2_eq_parse : fl53 (1/5) = float0p2 := by
  rw [fl53_eval (1/5) (-3) _ (by norm_num) (by norm_num) (by norm_num)
    (roundEven_eq_high _ 7205759403792793 (by norm_num) (by norm_num))]
  rw [float0p2]
  norm_num

/-- The loader resizes the 1600×1200 source at working height 1024 to
1365×1024: the double computation is `int(1600 * (1024/1200)) = 1365`. -/
theorem loaded1600 : load_image img1600 1024 = img1600.resize 1365 1024 := by
  show _resize_image_with_proportions img1600 none (some 1024) = _
  rw [_resize_image_with_proportions]
  rw [if_neg (by simp [truthyI]), if_neg (by simp [truthyI]), if_pos (by simp [truthyI])]
  congr 1
  · show (pyInt (fl53 (((1600 : ℕ) : ℚ)
      * fl53 (((1024 : ℤ) : ℚ) / ((1200 : ℕ) : ℚ))))).toNat = 1365
    have e1 : fl53 (((1024 : ℤ) : ℚ) / ((1200 : ℕ) : ℚ)) = 7686143364045647 / 2 ^ 53 := by
      rw [show ((1024 : ℤ) : ℚ) / ((1200 : ℕ) : ℚ) = 1024/1200 by norm_num]
      rw [fl53_eval (1024/1200) (-1) _ (by norm_num) (by norm_num) (by norm_num)
        (roundEven_eq_high _ 7686143364045646 (by norm_num) (by norm_num))]
      norm_num
    have e2 : fl53 (((1600 : ℕ) : ℚ) * (7686143364045647 / 2 ^ 53))
        = 6004799503160662 / 2 ^ 42 := by
      rw [show ((1600 : ℕ) : ℚ) * (7686143364045647 / 2 ^ 53)
        = 12297829382473035200 / 2 ^ 53 by norm_num]
      rw [fl53_eval _ 10 _ (by norm_num) (by norm_num) (by norm_num)
        (roundEven_eq_high _ 6004799503160661 (by norm_num) (by norm_num))]
      norm_num
    rw [e1, e2, pyInt_eq _ 1365 (by norm_num) (by norm_num) (by norm_num)]
    rfl

/-- The padded width of the 1365-wide working image at the double padding
fraction 0.2 is `int(1365 * (1 + 0.2*2)) = 1910`: in double arithmetic
`1365 * 1.4 = 1910.9999999999998`, which truncates to 1910. -/
theorem padded1600_width :
    (_prepare_image (load_image img1600 1024) float0p2).width = 1910 := by
  show (padWidth ((load_image img1600 1024).convert "RGBA").width float0p2).toNat = 1910
  have hcw : ((load_image img1600 1024).convert "RGBA").width
      = (load_image img1600 1024).width := rfl
  rw [hcw, loaded1600]
  show (padWidth 1365 float0p2).toNat = 1910
  have e1 : fl53 (float0p2 * 2) = 3602879701896397 / 2 ^ 53 := by
    rw [float0p2, show (3602879701896397 : ℚ) / 2 ^ 54 * 2 = 3602879701896397 / 2 ^ 53
      by norm_num]
    exact fl53_eq_self _ (-2) 7205759403792794 (by norm_num) (by norm_num) (by norm_num)
      (by norm_num)
  have e2 : fl53 (1 + 3602879701896397 / 2 ^ 53) = 6305039478318694 / 2 ^ 52 := by
    rw [show (1 : ℚ) + 3602879701896397 / 2 ^ 53 = 12610078956637389 / 2 ^ 53 by norm_num]
    rw [fl53_eval _ 0 _ (by norm_num) (by norm_num) (by norm_num)
      (roundEven_eq_tie _ 6305039478318694 (by norm_num) (by norm_num))]
    norm_num
  have e3 : fl53 (((1365 : ℕ) : ℚ) * (6305039478318694 / 2 ^ 52))
      = 8404666882719743 / 2 ^ 42 := by
    rw [show ((1365 : ℕ) : ℚ) * (6305039478318694 / 2 ^ 52)
      = 8606378887905017310 / 2 ^ 52 by norm_num]
    rw [fl53_eval _ 10 _ (by norm_num) (by norm_num) (by norm_num)
      (roundEven_eq_low _ 8404666882719743 (by norm_num) (by norm_num))]
    norm_num
  rw [padWidth, e1, e2, e3, pyInt_eq _ 1910 (by norm_num) (by norm_num) (by norm_num)]
  rfl

/-- C8 counterexample: the claimed padded width 1911 is wrong on the code.
At padding fraction 0.2 — the double `float0p2` produced by the Python
literal — the padded width of the 1365-wide working image is 1910, because
`1365 * 1.4` evaluates to `1910.9999999999998` in double precision and
`int()` truncates it. -/
theorem scenario_padded_width_counterexample :
    fl53 (1/5) = float0p2 ∧
    (_prepare_image (load_image img1600 1024) float0p2).width = 1910 ∧
    (_prepare_image (load_image img1600 1024) float0p2).width ≠ 1911 := by
  refine ⟨float0p2_eq_parse, padded1600_width, ?_⟩
  rw [padded1600_width]
  norm_num

/-- C8 amended: a 1600×1200 input at working height 1024 is resized to
1365×1024; with the double padding fraction 0.2 the padded width is 1910
(not 1911 — double rounding makes `1365 * 1.4 = 1910.9999999999998`, and
`int()` truncates); with tile size 1024 the left tile is the crop
`[0,1024) × [0,1024)` and the right tile is the crop `[886,1910) × [0,1024)`. -/
theorem scenario_1600x1200_amended :
    (load_image img1600 1024).width = 1365 ∧
    (load_image img1600 1024).height = 1024 ∧
    (_prepare_image (load_image img1600 1024) float0p2).width = 1910 ∧
    (_split_image (_prepare_image (load_image img1600 1024) float0p2) (1024, 1024)).1
      = (_prepare_image (load_image img1600 1024) float0p2).crop 0 0 1024 1024 ∧
    (_split_image (_prepare_image (load_image img1600 1024) float0p2) (1024, 1024)).2
      = (_prepare_image (load_image img1600 1024) float0p2).crop 886 0 1910 1024 := by
  have hpadZ : (((_prepare_image (load_image img1600 1024) float0p2).width : ℕ) : ℤ)
      = 1910 := by
    rw [padded1600_width]
    rfl
  refine ⟨by rw [loaded1600]; rfl, by rw [loaded1600]; rfl, padded1600_width, rfl, ?_⟩
  have hsplit : (_split_image (_prepare_image (load_image img1600 1024) float0p2)
      (1024, 1024)).2
      = (_prepare_image (load_image img1600 1024) float0p2).crop
        (((_prepare_image (load_image img1600 1024) float0p2).width : ℤ) - 1024) 0
        ((_prepare_image (load_image img1600 1024) float0p2).width : ℤ) 1024 := rfl
  rw [hsplit, hpadZ]
  norm_num

end Outpainting
